import Mathlib

/-!
Verification of the Track Resolution and Acquisition Pipeline (`src/main.py`).

The Python source is shallowly embedded below.  Conventions of the embedding:

* Python `float` scores are modelled as exact rationals (`ℚ`): every constant
  in the scorer (0.6, 0.4, 0.2, 0.25, 0.15, 0.40, -1.0) is a small decimal.
* Python strings are Lean `String`s; `unicodedata.normalize("NFKC", ·)` is
  modelled as the identity (the development works on NFKC-normal text), and
  the Unicode character classes used by the code (`\w`, `\s`,
  `unicodedata.category(ch).startswith("C")`) are modelled by explicit
  decidable character predicates below.
* Fallible external calls (`yt_dlp`, the `ffmpeg` subprocess, HTTP fetches)
  are modelled by an explicit environment record: each call site reads its
  outcome from the environment, and a raised Python exception is an explicit
  `raise`-shaped value that the embedded control flow must route exactly as
  the `try/except` blocks of the source do.
* The output directory is modelled as a list of file paths threaded through
  `process_one`; `os.remove`/`glob` become list operations on it.
-/

/-! ### Character-class predicates (models of the Python ones) -/

/-- Model of the character class Python `str.strip` / `\s` matches
(whitespace, including the Unicode space characters). -/
def pyIsSpace (c : Char) : Bool :=
  c = ' ' || c = '\t' || c = '\n' || c = '\r' || c.val = 0x0b || c.val = 0x0c ||
  c.val = 0x1c || c.val = 0x1d || c.val = 0x1e || c.val = 0x1f ||
  c.val = 0x85 || c.val = 0xa0 || c.val = 0x1680 ||
  (0x2000 ≤ c.val && c.val ≤ 0x200a) ||
  c.val = 0x2028 || c.val = 0x2029 || c.val = 0x202f || c.val = 0x205f || c.val = 0x3000

/-- Model of the regex class `\w` (word characters). -/
def isWordChar (c : Char) : Bool :=
  c.isAlphanum || c = '_'

/-- Model of `unicodedata.category(ch).startswith("C")`: control, format,
surrogate and private-use code points (explicit ranges). -/
def isCategoryC (c : Char) : Bool :=
  c.val < 0x20 || (0x7f ≤ c.val && c.val ≤ 0x9f) || c.val = 0xad ||
  (0x200b ≤ c.val && c.val ≤ 0x200f) || (0x202a ≤ c.val && c.val ≤ 0x202e) ||
  (0x2060 ≤ c.val && c.val ≤ 0x2064) || (0x2066 ≤ c.val && c.val ≤ 0x206f) ||
  c.val = 0xfeff || (0xfff9 ≤ c.val && c.val ≤ 0xfffb) ||
  (0xd800 ≤ c.val && c.val ≤ 0xdfff) || (0xe000 ≤ c.val && c.val ≤ 0xf8ff) ||
  (0xf0000 ≤ c.val)

/-! ### List-of-character helpers shared by the sanitizer and the normalizer -/

/-- `s.strip()` on a character list: drop whitespace from both ends. -/
def stripChars (l : List Char) : List Char :=
  ((l.dropWhile pyIsSpace).reverse.dropWhile pyIsSpace).reverse

/-- Worker for `re.sub(r"\s+", " ", ·)`: the boolean records whether the
previously emitted character was the single space of a whitespace run. -/
def collapseAux : Bool → List Char → List Char
  | _, [] => []
  | prevSpace, c :: rest =>
    if pyIsSpace c then
      if prevSpace then collapseAux true rest
      else ' ' :: collapseAux true rest
    else c :: collapseAux false rest

/-- `re.sub(r"\s+", " ", s)`: collapse every whitespace run to one space. -/
def collapseWs (l : List Char) : List Char := collapseAux false l

/-- `name.rstrip(". ")`: drop trailing dots and spaces. -/
def rstripDotSpace (l : List Char) : List Char :=
  (l.reverse.dropWhile (fun c => c = '.' || c = ' ')).reverse

/-! ### `sanitize_filename` (src/main.py lines 54-70) -/

/-- `FORBIDDEN_CHARS = set('\\/:*?"<>|')` -/
def FORBIDDEN_CHARS : List Char := ['\\', '/', ':', '*', '?', '"', '<', '>', '|']

/-- `(COM|LPT)[1-9]` as a full match on an upper-cased character list. -/
def comLptDigit : List Char → Bool
  | [c1, c2, c3, c4] =>
    ((c1 = 'C' && c2 = 'O' && c3 = 'M') || (c1 = 'L' && c2 = 'P' && c3 = 'T')) &&
    ('1' ≤ c4 && c4 ≤ '9')
  | _ => false

/-- `base_upper in {"CON","PRN","AUX","NUL"} or re.fullmatch(r"(COM|LPT)[1-9]", base_upper)`
where `base_upper = name.split(".")[0].upper()`. -/
def isReservedDevice (l : List Char) : Bool :=
  let b := (l.takeWhile (fun c => c ≠ '.')).map Char.toUpper
  b = "CON".toList || b = "PRN".toList || b = "AUX".toList || b = "NUL".toList ||
  comLptDigit b

/-- `sanitize_filename` (src/main.py lines 57-70).  NFKC normalization is
modelled as the identity; `name or ""` is the identity on `String`. -/
def sanitize_filename (name : String) : String :=
  let l0 := stripChars name.toList
  let l1 := l0.map (fun ch => if ch ∈ FORBIDDEN_CHARS || isCategoryC ch then '_' else ch)
  let l2 := collapseWs l1
  let l3 := rstripDotSpace l2
  let l4 := if isReservedDevice l3 then '_' :: l3 else l3
  String.mk (l4.take 180)

/-- The sanitized list before the reserved-device check (proof support:
this is the `l3` stage of `sanitize_filename`). -/
def sanitizeBody (s : String) : List Char :=
  rstripDotSpace (collapseWs ((stripChars s.toList).map
    (fun ch => if ch ∈ FORBIDDEN_CHARS || isCategoryC ch then '_' else ch)))

/-- Adjacent characters are not both spaces (the invariant the whitespace
collapse establishes; proof support). -/
def noSpacePair (a b : Char) : Prop := ¬(a = ' ' ∧ b = ' ')

/-! ### `_norm` and `_jaccard` (src/main.py lines 73-85) -/

/-- `_norm` (src/main.py lines 73-77): lowercase (NFKC modelled as identity),
replace non-word non-space characters by a space, collapse whitespace, strip. -/
def norm (s : String) : String :=
  let low := s.toList.map Char.toLower
  let repl := low.map (fun c => if !(isWordChar c || pyIsSpace c) then ' ' else c)
  String.mk (stripChars (collapseWs repl))

/-- Split a character list at spaces, accumulating the current word reversed
(the normalized form separates words by single spaces). -/
def splitSpace : List Char → List Char → List String
  | acc, [] => [String.mk acc.reverse]
  | acc, c :: rest =>
    if c = ' ' then String.mk acc.reverse :: splitSpace [] rest
    else splitSpace (c :: acc) rest

/-- `.split()` of a normalized string followed by `set(...)`:
the deduplicated word list (order of first occurrence). -/
def wordSet (s : String) : List String :=
  ((splitSpace [] (norm s).toList).filter (fun w => w ≠ "")).dedup

/-- `_jaccard` (src/main.py lines 80-85): `len(A & B) / len(A | B)`,
`0.0` when either word set is empty. -/
def jaccard (a b : String) : ℚ :=
  let A := wordSet a
  let B := wordSet b
  if A = [] ∨ B = [] then 0
  else ((A.filter (fun w => w ∈ B)).length : ℚ) /
       ((A ++ B.filter (fun w => w ∉ A)).length : ℚ)

/-! ### Scorer constants and `_score_candidate` (src/main.py lines 25-32, 176-197) -/

/-- `DUR_TOL = 0.15` -/
def DUR_TOL : ℚ := 15 / 100

/-- `NEGATIVE_WORDS` (src/main.py lines 28-31). -/
def NEGATIVE_WORDS : List String :=
  ["cover", "lyrics", "lyric", "live", "remix", "sped up", "slowed", "nightcore", "8d",
   "karaoke", "instrumental", "edit", "mashup", "reaction", "bass boosted", "tiktok", "parody"]

/-- `POSITIVE_HINTS` (src/main.py line 32). -/
def POSITIVE_HINTS : List String :=
  ["official video", "official audio", "official", "mv"]

/-- Contiguous-sublist test on character lists. -/
def isInfixB (needle : List Char) : List Char → Bool
  | [] => needle.isEmpty
  | c :: rest => needle.isPrefixOf (c :: rest) || isInfixB needle rest

/-- Python `needle in hay` on strings (substring test). -/
def substr (needle hay : String) : Bool :=
  isInfixB needle.toList hay.toList

/-- Python `s.lower()` (per-character, like the normalizer's lowercase). -/
def pyLower (s : String) : String := String.mk (s.toList.map Char.toLower)

/-- Python `s.strip()`. -/
def pyStrip (s : String) : String := String.mk (stripChars s.toList)

/-- Python `s.startswith(pre)`. -/
def startsWithB (pre s : String) : Bool := pre.toList.isPrefixOf s.toList

/-- Python `s.endswith(suf)`. -/
def endsWithB (suf s : String) : Bool :=
  suf.toList.reverse.isPrefixOf s.toList.reverse

/-- A search-result entry: the `yt_dlp` result dictionary restricted to the
keys the pipeline reads.  A missing key is `none`; `e.get(k) or d` becomes
`pyOrS` below (the empty string is falsy). -/
structure Entry where
  title : Option String := none
  uploader : Option String := none
  channel : Option String := none
  artist : Option String := none
  duration : Option Int := none
  webpage_url : Option String := none
  url : Option String := none
  thumbnail : Option String := none
deriving DecidableEq, Repr

/-- `a or b` for an optional string `a` (both `None` and `""` are falsy). -/
def pyOrS (a : Option String) (b : String) : String :=
  match a with
  | some s => if s = "" then b else s
  | none => b

/-- `_score_candidate` (src/main.py lines 176-197).  Python truthiness of the
numbers in `if target_sec and duration:` is the explicit `≠ 0` test. -/
def score_candidate (e : Entry) (want_title want_artist : String)
    (target_sec : Option Int) : ℚ :=
  let title := pyOrS e.title ""
  let uploader := pyOrS e.uploader (pyOrS e.channel "")
  let nl_title := norm title
  if NEGATIVE_WORDS.any (fun bad => substr bad nl_title) then -1
  else
    let s_title := jaccard title want_title
    let s_artist := jaccard (if uploader = "" then pyOrS e.artist "" else uploader) want_artist
    let s_pair := (6 / 10 : ℚ) * s_title + (4 / 10 : ℚ) * s_artist
    let dur_bonus : ℚ :=
      match target_sec, e.duration with
      | some t, some d =>
        if t ≠ 0 ∧ d ≠ 0 ∧ |(d : ℚ) - (t : ℚ)| ≤ DUR_TOL * max (t : ℚ) 1 then 2 / 10 else 0
      | _, _ => 0
    let up := pyLower uploader
    let channel_bonus1 : ℚ := if substr " - topic" up || endsWithB "topic" up then 25 / 100 else 0
    let channel_bonus2 : ℚ :=
      if substr "official" up || POSITIVE_HINTS.any (fun h => substr h nl_title) then 15 / 100 else 0
    s_pair + dur_bonus + channel_bonus1 + channel_bonus2

/-! ### `_pick_best` (src/main.py lines 200-208) -/

/-- One step of the selection loop: keep the incumbent unless the new
candidate scores strictly higher. -/
def pickStep (want_title want_artist : String) (target_sec : Option Int)
    (acc : Option Entry × ℚ) (e : Entry) : Option Entry × ℚ :=
  let sc := score_candidate e want_title want_artist target_sec
  if sc > acc.2 then (some e, sc) else acc

/-- `_pick_best` (src/main.py lines 200-208): fold with initial state
`(None, -1.0)`, then the `0.40` confidence floor. -/
def pick_best (entries : List Entry) (title artist : String)
    (target_sec : Option Int) : Option Entry :=
  let r := entries.foldl (pickStep title artist target_sec) (none, -1)
  match r with
  | (none, _) => none
  | (some b, s) => if s < 40 / 100 then none else some b

/-! ### Selection as the specification words it (for claim C1) -/

/-- Maximum of a list of scores, starting from the loop's initial `-1.0`. -/
def maxScoreList (l : List ℚ) : ℚ := l.foldl max (-1)

/-- Selection exactly as the specification describes it: none when the list is
empty or the maximum score is below the `0.40` confidence floor, otherwise the
first candidate attaining the maximum score (first-seen tie-break). -/
def specSelect (entries : List Entry) (title artist : String)
    (target_sec : Option Int) : Option Entry :=
  if entries.isEmpty then none
  else
    let m := maxScoreList (entries.map (fun e => score_candidate e title artist target_sec))
    if m < 40 / 100 then none
    else entries.find? (fun e => decide (score_candidate e title artist target_sec = m))

/-! ### The scoring formula as claim C2 words it -/

/-- The negative-keyword list exactly as the specification enumerates it
(it omits the `lyrics`, `lyric` and `8d` entries of the source's list). -/
def specNegativeWords : List String :=
  ["cover", "live", "remix", "sped up", "slowed", "nightcore", "karaoke",
   "instrumental", "edit", "mashup", "reaction", "bass boosted", "tiktok", "parody"]

/-- The per-candidate score exactly as claim C2 words it: weighted Jaccard
overlaps of title and uploader/channel name, a duration bonus within ±15% of
the target, a Topic-marker bonus and an official-hint bonus. -/
def spec_score (e : Entry) (want_title want_artist : String)
    (target_sec : Option Int) : ℚ :=
  let titleOverlap := jaccard (pyOrS e.title "") want_title
  let uploaderName := pyOrS e.uploader (pyOrS e.channel "")
  let artistOverlap := jaccard uploaderName want_artist
  let pairScore := (6 / 10 : ℚ) * titleOverlap + (4 / 10 : ℚ) * artistOverlap
  let durationBonus : ℚ :=
    match target_sec, e.duration with
    | some t, some d => if |(d : ℚ) - (t : ℚ)| ≤ (15 / 100 : ℚ) * (t : ℚ) then 2 / 10 else 0
    | _, _ => 0
  let up := pyLower uploaderName
  let topicBonus : ℚ := if substr " - topic" up || endsWithB "topic" up then 25 / 100 else 0
  let officialBonus : ℚ :=
    if substr "official" up || POSITIVE_HINTS.any (fun h => substr h (norm (pyOrS e.title ""))) then
      15 / 100
    else 0
  pairScore + durationBonus + topicBonus + officialBonus

/-- The scoring formula of claim C2 as amended to match the source: the artist
overlap falls back to the entry's `artist` field when the uploader/channel name
is empty, and the duration bonus requires both numbers to be nonzero (Python
truthiness) with tolerance `0.15 * max(target, 1)`. -/
def spec_score_amended (e : Entry) (want_title want_artist : String)
    (target_sec : Option Int) : ℚ :=
  let titleOverlap := jaccard (pyOrS e.title "") want_title
  let uploaderName := pyOrS e.uploader (pyOrS e.channel "")
  let artistSource := if uploaderName = "" then pyOrS e.artist "" else uploaderName
  let artistOverlap := jaccard artistSource want_artist
  let pairScore := (6 / 10 : ℚ) * titleOverlap + (4 / 10 : ℚ) * artistOverlap
  let durationBonus : ℚ :=
    match target_sec, e.duration with
    | some t, some d =>
      if t ≠ 0 ∧ d ≠ 0 ∧ |(d : ℚ) - (t : ℚ)| ≤ (15 / 100 : ℚ) * max (t : ℚ) 1 then 2 / 10 else 0
    | _, _ => 0
  let up := pyLower uploaderName
  let topicBonus : ℚ := if substr " - topic" up || endsWithB "topic" up then 25 / 100 else 0
  let officialBonus : ℚ :=
    if substr "official" up || POSITIVE_HINTS.any (fun h => substr h (norm (pyOrS e.title ""))) then
      15 / 100
    else 0
  pairScore + durationBonus + topicBonus + officialBonus

/-! ### `process_one` (src/main.py lines 287-424)

The acquisition job is embedded as a pure function of its inputs, an
environment of external-call outcomes, and the listing of the output
directory (a list of file paths, threaded through).  The cooperative pause
loops of the source block without affecting the result or the files, so they
have no counterpart in the embedding; each `kill_event.is_set()` checkpoint
reads one boolean of the environment. -/

/-- A raised Python exception: `yt_dlp.utils.DownloadError` or any other
`Exception`, carrying `str(e)`. -/
inductive PyExc where
  | dlError (msg : String)
  | exc (msg : String)
deriving DecidableEq, Repr

/-- The `asdict(Track)` dictionary handed to `process_one`. -/
structure Track where
  title : Option String := none
  artist : Option String := none
  album : Option String := none
  duration_ms : Option Int := none
deriving DecidableEq, Repr

/-- The `(index, ok, status, path)` tuple every job returns. -/
structure JobResult where
  index : Nat
  success : Bool
  status : String
  outputPath : String
deriving DecidableEq, Repr

/-- Outcomes of the external calls made by one job, in program order. -/
structure Env where
  /-- `FFMPEG_EXE` resolved to an executable at import time. -/
  ffmpegAvailable : Bool := true
  /-- `kill_event.is_set()` at the checkpoint before the search (line 343). -/
  killAtStart : Bool := false
  /-- `ydl.extract_info(query, download=False)`: entries, or a raised exception. -/
  extractOutcome : Except PyExc (List Entry) := .ok []
  /-- `kill_event.is_set()` at the checkpoint after selection (line 353). -/
  killAfterSelect : Bool := false
  /-- `ydl2.download([url])`: `none` on success, or a raised exception
  (the progress hook raises `DownloadError("killed by user")` on cancel). -/
  downloadOutcome : Option PyExc := none
  /-- Files the download attempt wrote into the output directory. -/
  downloadedFiles : List String := []
  /-- `kill_event.is_set()` at the checkpoint after the download (line 365). -/
  killAfterDownload : Bool := false
  /-- Result of `hard_convert_to_mp3_proc` (false on nonzero exit, missing or
  empty output, missing ffmpeg, or a kill observed inside its wait loop). -/
  convertOk : Bool := true
  /-- `kill_event.is_set()` at the checkpoint after conversion (line 393). -/
  killAfterConvert : Bool := false
  /-- Result of `_ffmpeg_embed_meta` (its value is discarded by the job). -/
  tagOk : Bool := true
deriving Repr

/-- `os.path.join(out_dir, name)` (POSIX separator). -/
def joinPath (dir name : String) : String := dir ++ "/" ++ name

/-- Position of the closing `]` in the characters after a `[`, scanning like
Python `fnmatch.translate`: the scan for `]` only starts after a leading `!`
and after a `]` placed first in the class. -/
def bracketEndFrom : List Char → Option Nat
  | [] => none
  | ']' :: _ => some 0
  | _ :: rest => (bracketEndFrom rest).map (· + 1)

/-- The index of the closing `]` for a bracket class (the characters after the
opening `[`), or `none` when the bracket is unterminated. -/
def bracketEnd (l : List Char) : Option Nat :=
  match l with
  | '!' :: ']' :: rest => (bracketEndFrom rest).map (· + 2)
  | '!' :: rest => (bracketEndFrom rest).map (· + 1)
  | ']' :: rest => (bracketEndFrom rest).map (· + 1)
  | rest => bracketEndFrom rest

/-- One character against the items of a bracket class: `a-b` is a range,
every other character stands for itself. -/
def matchSet : List Char → Char → Bool
  | a :: '-' :: b :: rest, c => (a ≤ c && c ≤ b) || matchSet rest c
  | a :: rest, c => (a = c) || matchSet rest c
  | [], _ => false

/-- One character against a full bracket class; a leading `!` negates. -/
def matchBracket (items : List Char) (c : Char) : Bool :=
  match items with
  | '!' :: rest => !(matchSet rest c)
  | _ => matchSet items c

/-- `fnmatch.fnmatch` of one path component against a glob pattern (POSIX
case-sensitive matching): `*` matches any sequence, `?` any character, `[...]`
a bracket class, and an unterminated `[` matches itself literally. -/
def fnmatchB : List Char → List Char → Bool
  | [], n => n.isEmpty
  | '*' :: ps, [] => fnmatchB ps []
  | '*' :: ps, c :: ns => fnmatchB ps (c :: ns) || fnmatchB ('*' :: ps) ns
  | '?' :: ps, _ :: ns => fnmatchB ps ns
  | '[' :: ps, c :: ns =>
    match bracketEnd ps with
    | some j => matchBracket (ps.take j) c && fnmatchB (ps.drop (j + 1)) ns
    | none => (c = '[') && fnmatchB ps ns
  | a :: ps, c :: ns => (a = c) && fnmatchB ps ns
  | _ :: _, [] => false
termination_by p n => (p.length, n.length)

/-- Membership in the cleanup glob `out_dir/basename.*.part` (line 412): the
source does not `glob.escape` the base name here (unlike the fetch scan at
line 370), so glob metacharacters surviving sanitization (such as `[` and `]`)
are interpreted by `fnmatch` on the final path component.  The directory part
is taken literally (an output directory without glob metacharacters). -/
def partMatch (out_dir basename : String) (p : String) : Bool :=
  (out_dir ++ "/").toList.isPrefixOf p.toList &&
  fnmatchB (basename ++ ".*.part").toList (p.toList.drop (out_dir.length + 1))

/-- The scan for the fetched file (lines 370-371): files matching
`out_dir/basename.*` whose lower-cased name does not end in `.mp3`. -/
def globCandidates (out_dir basename : String) (fs : List String) : List String :=
  fs.filter (fun p => startsWithB (joinPath out_dir basename ++ ".") p &&
    !(endsWithB ".mp3" (pyLower p)))

/-- The `except yt_dlp.utils.DownloadError` handler (lines 410-422): delete the
partial-download fragments, then report `Canceled` when the message mentions
the kill, otherwise `Error: <message>`. -/
def handleDownloadError (index : Nat) (out_dir basename msg : String)
    (fs : List String) : JobResult × List String :=
  let fs1 := fs.filter (fun p => !(partMatch out_dir basename p))
  if substr "killed" (pyLower msg) then (⟨index, false, "Canceled", ""⟩, fs1)
  else (⟨index, false, "Error: " ++ msg, ""⟩, fs1)

/-- `(t.get("title") or "").strip()` -/
def wantedTitle (t : Track) : String := pyStrip (pyOrS t.title "")

/-- `(t.get("artist") or "").strip()` -/
def wantedArtist (t : Track) : String := pyStrip (pyOrS t.artist "")

/-- `basename = sanitize_filename(f"{artist} - {title}")` -/
def baseNameOf (t : Track) : String :=
  sanitize_filename (wantedArtist t ++ " - " ++ wantedTitle t)

/-- `target_sec = (int(duration_ms) // 1000) if duration_ms else None`
(Python floor division; `0` is falsy). -/
def targetSecOf (t : Track) : Option Int :=
  match t.duration_ms with
  | some d => if d ≠ 0 then some (Int.fdiv d 1000) else none
  | none => none

/-- The selection step (line 351): `chosen = _pick_best(...) or entries[0]`,
guarded by the `if not entries` check (lines 349-350). -/
def choose_entry (entries : List Entry) (title artist : String)
    (target_sec : Option Int) : Option Entry :=
  match entries with
  | [] => none
  | e0 :: _ => some ((pick_best entries title artist target_sec).getD e0)

/-- `process_one` (src/main.py lines 287-424). -/
def process_one (index : Nat) (t : Track) (out_dir : String)
    (embed_metadata : Bool) (keep_original : Bool) (env : Env)
    (fs : List String) : JobResult × List String :=
  if !env.ffmpegAvailable && !keep_original then
    (⟨index, false, "yt-dlp or ffmpeg are not available", ""⟩, fs)
  else
    let basename := baseNameOf t
    let target_sec := targetSecOf t
    if env.killAtStart then (⟨index, false, "Canceled", ""⟩, fs)
    else
      match env.extractOutcome with
      | .error (.dlError m) => handleDownloadError index out_dir basename m fs
      | .error (.exc m) => (⟨index, false, "Error: " ++ m, ""⟩, fs)
      | .ok entries =>
        match choose_entry entries (wantedTitle t) (wantedArtist t) target_sec with
        | none => (⟨index, false, "No results found", ""⟩, fs)
        | some chosen =>
          if env.killAfterSelect then (⟨index, false, "Canceled", ""⟩, fs)
          else
            let url := pyOrS chosen.webpage_url (pyOrS chosen.url "")
            if url = "" then (⟨index, false, "Unknown link", ""⟩, fs)
            else
              match env.downloadOutcome with
              | some (.dlError m) =>
                handleDownloadError index out_dir basename m (fs ++ env.downloadedFiles)
              | some (.exc m) =>
                (⟨index, false, "Error: " ++ m, ""⟩, fs ++ env.downloadedFiles)
              | none =>
                let fs1 := fs ++ env.downloadedFiles
                if env.killAfterDownload then (⟨index, false, "Canceled", ""⟩, fs1)
                else
                  match globCandidates out_dir basename fs1 with
                  | [] => (⟨index, false, "Downloaded file not found", ""⟩, fs1)
                  | src_file :: _ =>
                    if keep_original then (⟨index, true, "Done (original)", src_file⟩, fs1)
                    else
                      let mp3_path := joinPath out_dir (basename ++ ".mp3")
                      if !env.convertOk then
                        (⟨index, false, "FFmpeg conversion to MP3 failed/canceled", ""⟩,
                         fs1.filter (fun p => p ≠ mp3_path))
                      else
                        let fs2 := (fs1 ++ [mp3_path]).filter (fun p => p ≠ src_file)
                        if env.killAfterConvert then
                          (⟨index, false, "Canceled", ""⟩, fs2.filter (fun p => p ≠ mp3_path))
                        else
                          let _tagResult := if embed_metadata then some env.tagOk else none
                          (⟨index, true, "Done", mp3_path⟩, fs2)

/-! ### `_compute_workers` (src/main.py lines 427-431) -/

/-- `_compute_workers`: `cpu = os.cpu_count() or 2`, then the two modes. -/
def compute_workers (cpu_count : Option Nat) (accelerated : Bool) : Nat :=
  let cpu := match cpu_count with
    | some n => if n ≠ 0 then n else 2
    | none => 2
  if accelerated then max 1 (cpu - 1)
  else max 1 (min 4 (max 1 (cpu / 2)))

/-! ### `_ffmpeg_embed_meta` (src/main.py lines 211-284)

The audio file, the `.tmp` re-mux output and the downloaded cover temporary
are modelled as opaque content/size pairs in a small file state. -/

/-- An opaque file: a content identifier together with its byte size. -/
structure TagFile where
  content : Nat
  size : Nat
deriving DecidableEq, Repr

/-- Outcomes of the external calls made by the tagging step. -/
structure TagEnv where
  /-- `FFMPEG_EXE or shutil.which("ffmpeg")` resolved. -/
  ffmpegAvailable : Bool := true
  /-- the `requests` import succeeded. -/
  requestsAvailable : Bool := true
  /-- the cover download: `some` when `r.ok and r.content` with that body. -/
  coverFetch : Option TagFile := none
  /-- the re-mux subprocess's return code. -/
  muxExit : Int := 0
  /-- `tmp_out` as written by the subprocess (`none` when never created). -/
  muxOutput : Option TagFile := none
deriving DecidableEq, Repr

/-- The files the tagging step touches: the audio file at `mp3_path`, the
`.tmp` re-mux output next to it, and the downloaded cover temporary. -/
structure TagState where
  mp3 : TagFile
  tmp : Option TagFile := none
  coverTmp : Option TagFile := none
deriving DecidableEq, Repr

/-- `_ffmpeg_embed_meta` as a file-state transformer.  `title`, `artist`,
`album` and the cover only shape the subprocess command line; the state
semantics follow lines 211-284 of the source. -/
def ffmpeg_embed_meta (st : TagState) (title artist album : String)
    (cover_url : Option String) (env : TagEnv) : Bool × TagState :=
  if !env.ffmpegAvailable then (false, st)
  else
    let cover_file : Option TagFile :=
      if cover_url.isSome && env.requestsAvailable then env.coverFetch else none
    let st1 : TagState := { st with coverTmp := cover_file }
    let _cmdUsesCover := cover_file.isSome
    let _cmdUsesAlbum := album ≠ ""
    let _tags := (title, artist)
    match env.muxOutput with
    | some f =>
      if env.muxExit = 0 && 0 < f.size then
        (true, { st1 with mp3 := f, tmp := none, coverTmp := none })
      else
        (false, { st1 with tmp := none, coverTmp := none })
    | none => (false, { st1 with tmp := none, coverTmp := none })

/-! ## Shared lemmas -/

lemma le_foldl_max (l : List ℚ) : ∀ a : ℚ, a ≤ l.foldl max a := by
  induction l with
  | nil => intro a; exact le_refl a
  | cons x xs ih => intro a; exact le_trans (le_max_left a x) (ih (max a x))

lemma foldl_max_lt (l : List ℚ) :
    ∀ (a x : ℚ), a < x → (∀ b ∈ l, b < x) → l.foldl max a < x := by
  induction l with
  | nil => intro a x ha _; simpa using ha
  | cons y ys ih =>
    intro a x ha hb
    refine ih (max a y) x (max_lt ha (hb y (by simp))) ?_
    intro b hbmem
    exact hb b (by simp [hbmem])

/-- The selection loop of `_pick_best`, characterized: starting from score
`s0`, the fold returns the first element attaining the running maximum when
some element exceeds `s0`, and the initial accumulator otherwise. -/
lemma sel_foldl {α : Type} (f : α → ℚ) (l : List α) :
    ∀ (b0 : Option α) (s0 : ℚ),
      l.foldl (fun acc e => if f e > acc.2 then (some e, f e) else acc) (b0, s0) =
        if s0 < (l.map f).foldl max s0 then
          (l.find? (fun e => decide (f e = (l.map f).foldl max s0)), (l.map f).foldl max s0)
        else (b0, s0) := by
  induction l with
  | nil => intro b0 s0; simp
  | cons x xs ih =>
    intro b0 s0
    have hM : ((x :: xs).map f).foldl max s0 = (xs.map f).foldl max (max s0 (f x)) := by
      simp
    by_cases hfx : s0 < f x
    · have hmax : max s0 (f x) = f x := max_eq_right (le_of_lt hfx)
      rw [List.foldl_cons]
      have hstep : (if f x > (b0, s0).2 then (some x, f x) else (b0, s0)) = (some x, f x) := by
        simp [hfx]
      rw [hstep, ih (some x) (f x)]
      have hfle : f x ≤ (xs.map f).foldl max (f x) := le_foldl_max _ _
      by_cases hlt : f x < (xs.map f).foldl max (f x)
      · have hne : f x ≠ (xs.map f).foldl max (f x) := ne_of_lt hlt
        have hs0M : s0 < ((x :: xs).map f).foldl max s0 := by
          rw [hM, hmax]; exact lt_of_lt_of_le hfx hfle
        rw [if_pos hlt, if_pos hs0M]
        have hMeq : ((x :: xs).map f).foldl max s0 = (xs.map f).foldl max (f x) := by
          rw [hM, hmax]
        rw [hMeq, List.find?_cons_of_neg _ (by simp [hne])]
      · have heq : f x = (xs.map f).foldl max (f x) := le_antisymm hfle (le_of_not_lt hlt)
        have hMeq : ((x :: xs).map f).foldl max s0 = f x := by
          rw [hM, hmax, ← heq]
        have hs0M : s0 < ((x :: xs).map f).foldl max s0 := by rw [hMeq]; exact hfx
        rw [if_neg hlt, if_pos hs0M]
        rw [hMeq, List.find?_cons_of_pos _ (by simp)]
    · have hmax : max s0 (f x) = s0 := max_eq_left (le_of_not_lt hfx)
      rw [List.foldl_cons]
      have hstep : (if f x > (b0, s0).2 then (some x, f x) else (b0, s0)) = (b0, s0) := by
        simp [hfx]
      rw [hstep, ih b0 s0]
      have hMeq : ((x :: xs).map f).foldl max s0 = (xs.map f).foldl max s0 := by
        rw [hM, hmax]
      by_cases hs0 : s0 < (xs.map f).foldl max s0
      · have hfxne : f x ≠ (xs.map f).foldl max s0 :=
          ne_of_lt (lt_of_le_of_lt (le_of_not_lt hfx) hs0)
        rw [if_pos hs0, if_pos (hMeq ▸ hs0), hMeq,
          List.find?_cons_of_neg _ (by simp [hfxne])]
      · rw [if_neg hs0, if_neg (hMeq ▸ hs0)]

/-- `pickStep` is the anonymous selection step. -/
lemma pickStep_eq (title artist : String) (target_sec : Option Int) :
    pickStep title artist target_sec =
      (fun (acc : Option Entry × ℚ) e =>
        if score_candidate e title artist target_sec > acc.2 then
          (some e, score_candidate e title artist target_sec) else acc) := rfl

/-- A candidate whose normalized title triggers the negative-word check is
scored `-1` by the early return of `_score_candidate`. -/
lemma score_candidate_neg (e : Entry) (want_title want_artist : String)
    (target_sec : Option Int)
    (hany : NEGATIVE_WORDS.any
      (fun bad => substr bad (norm (pyOrS e.title ""))) = true) :
    score_candidate e want_title want_artist target_sec = -1 := by
  unfold score_candidate
  simp only [hany, if_true]

/-! ## Claim C1: selection picks the strictly highest score, first-seen ties,
`None` on an empty list or a maximum below the 0.40 floor, deterministically -/

/-- **C1**: `_pick_best` equals the selection the specification describes:
it returns no candidate exactly when the list is empty or the maximum score is
below the 0.40 confidence floor, and otherwise the first candidate attaining
the (strictly highest) maximum score; being a pure function of its inputs, the
selection is the same on identical inputs. -/
theorem pick_best_eq_specSelect (entries : List Entry) (title artist : String)
    (target_sec : Option Int) :
    pick_best entries title artist target_sec =
      specSelect entries title artist target_sec := by
  cases entries with
  | nil => simp [pick_best, specSelect]
  | cons e0 rest =>
    unfold pick_best specSelect
    rw [pickStep_eq,
      sel_foldl (fun e => score_candidate e title artist target_sec) (e0 :: rest) none (-1)]
    set M := ((e0 :: rest).map fun e => score_candidate e title artist target_sec).foldl
      max (-1) with hMdef
    have hMeq : maxScoreList ((e0 :: rest).map
        fun e => score_candidate e title artist target_sec) = M := rfl
    rw [hMeq]
    by_cases hM : (-1 : ℚ) < M
    · rw [if_pos hM]
      cases hf : (e0 :: rest).find?
          (fun e => decide (score_candidate e title artist target_sec = M)) with
      | none => simp [hf]
      | some b =>
        by_cases hlt : M < 40 / 100
        · simp [hf, hlt]
        · simp [hf, hlt]
    · rw [if_neg hM]
      have hMle : (-1 : ℚ) ≤ M := le_foldl_max _ _
      have hMeq1 : M = (-1 : ℚ) := le_antisymm (le_of_not_lt hM) hMle
      have hlt : M < 40 / 100 := by rw [hMeq1]; norm_num
      simp [hlt]

/-! ## Claim C4: low-confidence fallback to the first raw result -/

/-- **C4**: on a non-empty result list in which every candidate scores below
the 0.40 confidence floor, the selection step of `process_one` does not fail
but chooses the first raw result (`chosen = _pick_best(...) or entries[0]`). -/
theorem low_confidence_fallback (e0 : Entry) (rest : List Entry)
    (title artist : String) (target_sec : Option Int)
    (hlow : ∀ e ∈ e0 :: rest, score_candidate e title artist target_sec < 40 / 100) :
    choose_entry (e0 :: rest) title artist target_sec = some e0 := by
  have hnone : pick_best (e0 :: rest) title artist target_sec = none := by
    unfold pick_best
    rw [pickStep_eq,
      sel_foldl (fun e => score_candidate e title artist target_sec) (e0 :: rest) none (-1)]
    set M := ((e0 :: rest).map fun e => score_candidate e title artist target_sec).foldl
      max (-1) with hMdef
    have hMlt : M < 40 / 100 := by
      refine foldl_max_lt _ _ _ (by norm_num) ?_
      intro b hb
      rcases List.mem_map.mp hb with ⟨e, he, rfl⟩
      exact hlow e he
    by_cases hM : (-1 : ℚ) < M
    · rw [if_pos hM]
      cases hf : (e0 :: rest).find?
          (fun e => decide (score_candidate e title artist target_sec = M)) with
      | none => simp [hf]
      | some b => simp [hf, hMlt]
    · rw [if_neg hM]
  simp [choose_entry, hnone]

/-- Witness for C4 at a concrete input: a single disqualified candidate scores
below the floor, and the selection step still yields it as the fallback. -/
theorem low_confidence_fallback_witness :
    (∀ e ∈ [({ title := some "cover" } : Entry)],
      score_candidate e "abc" "def" none < 40 / 100) ∧
    choose_entry [({ title := some "cover" } : Entry)] "abc" "def" none =
      some { title := some "cover" } := by
  have hsc : score_candidate { title := some "cover" } "abc" "def" none = -1 :=
    score_candidate_neg _ _ _ _ (by decide)
  have hlow : ∀ e ∈ [({ title := some "cover" } : Entry)],
      score_candidate e "abc" "def" none < 40 / 100 := by
    intro e he
    rcases List.mem_singleton.mp he with rfl
    rw [hsc]; norm_num
  exact ⟨hlow, low_confidence_fallback _ [] "abc" "def" none hlow⟩

/-! ## Claim C3: negative keywords disqualify with score exactly −1 -/

/-- **C3**: a candidate whose normalized title contains an entry of the
specification's negative-keyword list scores exactly −1, which is below the
0.40 confidence floor. -/
theorem negative_keyword_disqualifies (e : Entry) (want_title want_artist : String)
    (target_sec : Option Int) (b : String) (hb : b ∈ specNegativeWords)
    (hin : substr b (norm (pyOrS e.title "")) = true) :
    score_candidate e want_title want_artist target_sec = -1 ∧
    score_candidate e want_title want_artist target_sec < 40 / 100 := by
  have hsub : ∀ x ∈ specNegativeWords, x ∈ NEGATIVE_WORDS := by decide
  have hany : NEGATIVE_WORDS.any
      (fun bad => substr bad (norm (pyOrS e.title ""))) = true :=
    List.any_eq_true.mpr ⟨b, hsub b hb, hin⟩
  have hsc := score_candidate_neg e want_title want_artist target_sec hany
  refine ⟨hsc, ?_⟩
  rw [hsc]; norm_num

/-- Witness for C3: a candidate titled `"cover"` scores exactly −1, below the
confidence floor. -/
theorem negative_keyword_disqualifies_witness :
    "cover" ∈ specNegativeWords ∧
    substr "cover" (norm (pyOrS (Entry.title { title := some "cover" }) "")) = true ∧
    (score_candidate { title := some "cover" } "x" "y" none = -1 ∧
     score_candidate { title := some "cover" } "x" "y" none < 40 / 100) :=
  ⟨by decide, by decide,
   negative_keyword_disqualifies { title := some "cover" } "x" "y" none "cover"
     (by decide) (by decide)⟩

/-! ## Claim C2: the scoring formula -/

/-- Evaluation helper: `_jaccard` on nonempty word sets is the intersection
size over the union size. -/
lemma jaccard_eval (a b : String) (nI nU : Nat)
    (hA : wordSet a ≠ []) (hB : wordSet b ≠ [])
    (hI : ((wordSet a).filter (fun w => w ∈ wordSet b)).length = nI)
    (hU : ((wordSet a) ++ (wordSet b).filter (fun w => w ∉ wordSet a)).length = nU) :
    jaccard a b = (nI : ℚ) / (nU : ℚ) := by
  simp only [jaccard]
  rw [if_neg (not_or.mpr ⟨hA, hB⟩), hI, hU]

/-- Evaluation helper: `_jaccard` is `0` when either word set is empty. -/
lemma jaccard_zero (a b : String) (h : wordSet a = [] ∨ wordSet b = []) :
    jaccard a b = 0 := by
  simp only [jaccard]
  rw [if_pos h]

set_option maxHeartbeats 1000000 in
/-- **C2 counterexample**: the candidate titled `"lyrics"` contains no entry of
the specification's negative-keyword list, yet the source scores it −1 (its
list also bans `lyrics`) while the claim's formula gives 0.6. -/
theorem score_formula_spec_counterexample :
    (∀ b ∈ specNegativeWords, substr b (norm "lyrics") = false) ∧
    score_candidate { title := some "lyrics" } "lyrics" "" none ≠
      spec_score { title := some "lyrics" } "lyrics" "" none ∧
    score_candidate { title := some "lyrics" } "lyrics" "" none = -1 ∧
    spec_score { title := some "lyrics" } "lyrics" "" none = 6 / 10 := by
  have hn : norm "lyrics" = "lyrics" := by decide
  have hnegLit : ∀ b ∈ specNegativeWords, substr b "lyrics" = false := by decide
  have hneg : ∀ b ∈ specNegativeWords, substr b (norm "lyrics") = false := by
    intro b hb; rw [hn]; exact hnegLit b hb
  have hanyT : NEGATIVE_WORDS.any
      (fun bad => substr bad (norm (pyOrS (some "lyrics") ""))) = true := by
    have : pyOrS (some "lyrics") "" = "lyrics" := by decide
    rw [this, hn]
    decide
  have hsc : score_candidate { title := some "lyrics" } "lyrics" "" none = -1 :=
    score_candidate_neg _ _ _ _ hanyT
  have hj1 : jaccard "lyrics" "lyrics" = 1 := by
    rw [jaccard_eval "lyrics" "lyrics" 1 1 (by decide) (by decide) (by decide) (by decide)]
    norm_num
  have hj0 : jaccard "" "" = 0 := jaccard_zero _ _ (Or.inl (by decide))
  have ht1 : substr " - topic" (pyLower "") = false := by decide
  have ht2 : endsWithB "topic" (pyLower "") = false := by decide
  have ho1 : substr "official" (pyLower "") = false := by decide
  have ho2 : POSITIVE_HINTS.any (fun h => substr h "lyrics") = false := by decide
  have hb1 : pyOrS (some "lyrics") "" = "lyrics" := by decide
  have hb2 : pyOrS (none : Option String) (pyOrS none "") = "" := rfl
  have hs2 : spec_score { title := some "lyrics" } "lyrics" "" none = 6 / 10 := by
    simp only [spec_score, hb1, hb2, hn, hj1, hj0, ht1, ht2, ho1, ho2,
      Bool.or_self, Bool.or_false, Bool.false_eq_true, if_false]
    norm_num
  refine ⟨hneg, ?_, hsc, hs2⟩
  rw [hsc, hs2]
  norm_num

/-- **C2 (amended)**: for a candidate whose normalized title contains no entry
of the source's negative-word list (which additionally bans `lyrics`, `lyric`
and `8d`), the score equals the claim's formula, with the artist overlap
falling back to the entry's `artist` field when the uploader/channel name is
empty and the duration bonus requiring nonzero numbers within
`0.15 * max(target, 1)`. -/
theorem score_formula_amended (e : Entry) (want_title want_artist : String)
    (target_sec : Option Int)
    (hneg : NEGATIVE_WORDS.any
      (fun bad => substr bad (norm (pyOrS e.title ""))) = false) :
    score_candidate e want_title want_artist target_sec =
      spec_score_amended e want_title want_artist target_sec := by
  unfold score_candidate spec_score_amended DUR_TOL
  simp only [hneg, Bool.false_eq_true, if_false]

/-- Witness for the amended C2 at a concrete input. -/
theorem score_formula_amended_witness :
    NEGATIVE_WORDS.any
      (fun bad => substr bad (norm (pyOrS (some "song") ""))) = false ∧
    score_candidate { title := some "song" } "song" "x" none =
      spec_score_amended { title := some "song" } "song" "x" none :=
  ⟨by decide, score_formula_amended _ "song" "x" none (by decide)⟩

/-! ## Claim C9: the worker-count policy -/

/-- **C9**: `_compute_workers` is `max(1, p − 1)` in accelerated mode and
`max(1, min(4, p / 2))` in standard mode, and is always at least 1. -/
theorem compute_workers_policy (p : Nat) (hp : p ≠ 0) (accelerated : Bool) :
    compute_workers (some p) accelerated =
      (if accelerated then max 1 (p - 1) else max 1 (min 4 (p / 2))) ∧
    1 ≤ compute_workers (some p) accelerated := by
  cases accelerated with
  | true => refine ⟨?_, ?_⟩ <;> simp [compute_workers, hp]
  | false =>
    constructor
    · simp [compute_workers, hp]
      omega
    · simp [compute_workers, hp]

/-- Witness for C9 at `p = 8`. -/
theorem compute_workers_policy_witness :
    compute_workers (some 8) true =
      (if true then max 1 (8 - 1) else max 1 (min 4 (8 / 2))) ∧
    1 ≤ compute_workers (some 8) true :=
  compute_workers_policy 8 (by decide) true

/-! ## Claim C10: atomicity of the tagging step -/

/-- **C10**: when ffmpeg is available, `_ffmpeg_embed_meta` always removes the
`.tmp` output and the downloaded cover temporary; on failure (nonzero exit,
missing or empty output) the audio file is unchanged and `false` is returned;
on success the audio file is replaced by the re-mux output in a single rename. -/
theorem embed_meta_atomic (st : TagState) (title artist album : String)
    (cover_url : Option String) (env : TagEnv)
    (hff : env.ffmpegAvailable = true) :
    ((ffmpeg_embed_meta st title artist album cover_url env).2.coverTmp = none) ∧
    ((ffmpeg_embed_meta st title artist album cover_url env).2.tmp = none) ∧
    ((ffmpeg_embed_meta st title artist album cover_url env).1 = false →
      (ffmpeg_embed_meta st title artist album cover_url env).2.mp3 = st.mp3) ∧
    ((ffmpeg_embed_meta st title artist album cover_url env).1 = true →
      ∃ f, env.muxOutput = some f ∧ env.muxExit = 0 ∧ 0 < f.size ∧
        (ffmpeg_embed_meta st title artist album cover_url env).2.mp3 = f) := by
  unfold ffmpeg_embed_meta
  simp only [hff, Bool.not_true, Bool.false_eq_true, if_false]
  cases hmux : env.muxOutput with
  | none => simp
  | some f =>
    by_cases h0 : env.muxExit = 0
    · by_cases hs : 0 < f.size
      · simp [h0, hs]
      · simp [h0, hs]
    · simp [h0]

/-- Witness for C10 at a concrete input: a successful re-mux replaces the
audio content, removes the temporaries, and returns `true`. -/
theorem embed_meta_atomic_witness :
    ((ffmpeg_embed_meta ⟨⟨1, 10⟩, none, none⟩ "t" "a" "al" none
        { muxOutput := some ⟨2, 3⟩ }).2.coverTmp = none) ∧
    ((ffmpeg_embed_meta ⟨⟨1, 10⟩, none, none⟩ "t" "a" "al" none
        { muxOutput := some ⟨2, 3⟩ }).2.tmp = none) ∧
    ((ffmpeg_embed_meta ⟨⟨1, 10⟩, none, none⟩ "t" "a" "al" none
        { muxOutput := some ⟨2, 3⟩ }).1 = false →
      (ffmpeg_embed_meta ⟨⟨1, 10⟩, none, none⟩ "t" "a" "al" none
        { muxOutput := some ⟨2, 3⟩ }).2.mp3 = (⟨1, 10⟩ : TagFile)) ∧
    ((ffmpeg_embed_meta ⟨⟨1, 10⟩, none, none⟩ "t" "a" "al" none
        { muxOutput := some ⟨2, 3⟩ }).1 = true →
      ∃ f, (TagEnv.mk true true none 0 (some ⟨2, 3⟩)).muxOutput = some f ∧
        (TagEnv.mk true true none 0 (some ⟨2, 3⟩)).muxExit = 0 ∧ 0 < f.size ∧
        (ffmpeg_embed_meta ⟨⟨1, 10⟩, none, none⟩ "t" "a" "al" none
          { muxOutput := some ⟨2, 3⟩ }).2.mp3 = f) :=
  embed_meta_atomic ⟨⟨1, 10⟩, none, none⟩ "t" "a" "al" none
    { muxOutput := some ⟨2, 3⟩ } rfl

/-! ## Claim C6: one result per job, with the index preserved and unexpected
failures converted to `Error: <message>` at the job boundary -/

/-- **C6**: the job is a total function producing exactly one result tuple; the
result's index always equals the input index, and each raised exception of the
embedded external calls is caught and reported as a failed result whose status
is `"Error: <message>"` (a `DownloadError` whose message mentions the kill is
cancellation, not an unexpected failure). -/
theorem job_boundary (index : Nat) (t : Track) (out_dir : String)
    (embed_metadata keep_original : Bool) (env : Env) (fs : List String) :
    ((process_one index t out_dir embed_metadata keep_original env fs).1.index = index) ∧
    (∀ m, env.ffmpegAvailable = true → env.killAtStart = false →
      env.extractOutcome = .error (.exc m) →
      process_one index t out_dir embed_metadata keep_original env fs =
        (⟨index, false, "Error: " ++ m, ""⟩, fs)) ∧
    (∀ m, env.ffmpegAvailable = true → env.killAtStart = false →
      env.extractOutcome = .error (.dlError m) →
      substr "killed" (pyLower m) = false →
      process_one index t out_dir embed_metadata keep_original env fs =
        (⟨index, false, "Error: " ++ m, ""⟩,
         fs.filter (fun p => !(partMatch out_dir (baseNameOf t) p)))) ∧
    (∀ m entries chosen, env.ffmpegAvailable = true → env.killAtStart = false →
      env.extractOutcome = .ok entries →
      choose_entry entries (wantedTitle t) (wantedArtist t) (targetSecOf t) = some chosen →
      env.killAfterSelect = false →
      pyOrS chosen.webpage_url (pyOrS chosen.url "") ≠ "" →
      env.downloadOutcome = some (.exc m) →
      process_one index t out_dir embed_metadata keep_original env fs =
        (⟨index, false, "Error: " ++ m, ""⟩, fs ++ env.downloadedFiles)) := by
  refine ⟨?_, ?_, ?_, ?_⟩
  · unfold process_one handleDownloadError
    dsimp only
    repeat' split
    all_goals rfl
  · intro m hff hk hex
    simp only [process_one, hff, hk, hex, Bool.not_true, Bool.false_and,
      Bool.false_eq_true, if_false]
  · intro m hff hk hex hkilled
    simp only [process_one, handleDownloadError, hff, hk, hex, hkilled,
      Bool.not_true, Bool.false_and, Bool.false_eq_true, if_false]
  · intro m entries chosen hff hk hex hch hk2 hurl hdl
    simp only [process_one, hff, hk, hex, hch, hk2, hurl, hdl, Bool.not_true,
      Bool.false_and, Bool.false_eq_true, if_false, ne_eq, ite_false]

/-- Witness for C6: an unexpected exception of the search call is reported as
`Error: <message>` with the input index. -/
theorem job_boundary_witness :
    process_one 3 {} "out" true false { extractOutcome := .error (.exc "boom") } [] =
      (⟨3, false, "Error: " ++ "boom", ""⟩, []) ∧
    (process_one 3 {} "out" true false
      { extractOutcome := .error (.exc "boom") } []).1.index = 3 :=
  ⟨(job_boundary 3 {} "out" true false
      { extractOutcome := .error (.exc "boom") } []).2.1 "boom" rfl rfl rfl,
   (job_boundary 3 {} "out" true false
      { extractOutcome := .error (.exc "boom") } []).1⟩

/-! ## Claim C7: a tagging failure never downgrades a successful job -/

/-- **C7**: when search, selection, download and conversion all succeed and
metadata embedding was requested, the job returns `Done` with the mp3 path for
either outcome of the tagging step (its boolean result is discarded). -/
theorem tagging_failure_nonfatal (index : Nat) (t : Track) (out_dir : String)
    (env : Env) (fs : List String) (entries : List Entry) (chosen : Entry)
    (src_file : String) (tail : List String)
    (hff : env.ffmpegAvailable = true)
    (hk1 : env.killAtStart = false)
    (hex : env.extractOutcome = .ok entries)
    (hch : choose_entry entries (wantedTitle t) (wantedArtist t) (targetSecOf t) = some chosen)
    (hk2 : env.killAfterSelect = false)
    (hurl : pyOrS chosen.webpage_url (pyOrS chosen.url "") ≠ "")
    (hdl : env.downloadOutcome = none)
    (hk3 : env.killAfterDownload = false)
    (hglob : globCandidates out_dir (baseNameOf t) (fs ++ env.downloadedFiles) =
      src_file :: tail)
    (hconv : env.convertOk = true)
    (hk4 : env.killAfterConvert = false) :
    ∀ b : Bool,
      (process_one index t out_dir true false { env with tagOk := b } fs).1 =
        ⟨index, true, "Done", joinPath out_dir (baseNameOf t ++ ".mp3")⟩ := by
  intro b
  simp only [process_one, hff, hk1, hex, hch, hk2, hurl, hdl, hk3, hglob, hconv, hk4,
    Bool.not_true, Bool.not_false, Bool.false_and, Bool.false_eq_true, if_false,
    ne_eq, ite_false, Bool.true_eq_false]

/-- Witness for C7: a concrete successful job reports `Done` although the
tagging step returned `false`. -/
theorem tagging_failure_nonfatal_witness :
    (process_one 0 {} "out" true false
      { extractOutcome := .ok [{ title := some "cover", webpage_url := some "u" }],
        downloadedFiles := ["out/-.webm"], tagOk := false } []).1 =
      ⟨0, true, "Done", joinPath "out" (baseNameOf {} ++ ".mp3")⟩ := by
  have hsc : score_candidate { title := some "cover", webpage_url := some "u" }
      "" "" none = -1 :=
    score_candidate_neg _ _ _ _ (by decide)
  have hpick : pick_best [{ title := some "cover", webpage_url := some "u" }]
      "" "" none = none := by
    simp [pick_best, pickStep, hsc]
  have hch : choose_entry [({ title := some "cover", webpage_url := some "u" } : Entry)]
      (wantedTitle {}) (wantedArtist {}) (targetSecOf {}) =
      some { title := some "cover", webpage_url := some "u" } := by
    have h1 : wantedTitle ({} : Track) = "" := by decide
    have h2 : wantedArtist ({} : Track) = "" := by decide
    rw [h1, h2]
    simp [choose_entry, targetSecOf, hpick]
  exact tagging_failure_nonfatal 0 {} "out"
    { extractOutcome := .ok [{ title := some "cover", webpage_url := some "u" }],
      downloadedFiles := ["out/-.webm"] } []
    [{ title := some "cover", webpage_url := some "u" }]
    { title := some "cover", webpage_url := some "u" } "out/-.webm" []
    rfl rfl rfl hch rfl (by decide) rfl rfl (by decide) rfl rfl false

/-! ## Claim C8: cancellation checkpoints -/

/-- **C8 counterexample**: at the post-download cancel checkpoint (lines
365-368) the job returns `Canceled` but deletes nothing: the completed
download, a job-written output artifact matching the sanitized base name,
remains on disk, refuting the claim's "deletes every partial output artifact
matching its sanitized base name". -/
theorem cancel_leaves_completed_download :
    (process_one 0 {} "out" true false
      { extractOutcome := .ok [{ title := some "cover", webpage_url := some "u" }],
        downloadedFiles := ["out/-.webm"], killAfterDownload := true } []).1.status =
      "Canceled" ∧
    "out/-.webm" ∈ (process_one 0 {} "out" true false
      { extractOutcome := .ok [{ title := some "cover", webpage_url := some "u" }],
        downloadedFiles := ["out/-.webm"], killAfterDownload := true } []).2 ∧
    startsWithB (joinPath "out" (baseNameOf {}) ++ ".") "out/-.webm" = true := by
  have hsc : score_candidate { title := some "cover", webpage_url := some "u" }
      "" "" none = -1 :=
    score_candidate_neg _ _ _ _ (by decide)
  have hpick : pick_best [{ title := some "cover", webpage_url := some "u" }]
      "" "" none = none := by
    simp [pick_best, pickStep, hsc]
  have hch : choose_entry [({ title := some "cover", webpage_url := some "u" } : Entry)]
      (wantedTitle {}) (wantedArtist {}) (targetSecOf {}) =
      some { title := some "cover", webpage_url := some "u" } := by
    have h1 : wantedTitle ({} : Track) = "" := by decide
    have h2 : wantedArtist ({} : Track) = "" := by decide
    rw [h1, h2]
    simp [choose_entry, targetSecOf, hpick]
  have hres : process_one 0 {} "out" true false
      { extractOutcome := .ok [{ title := some "cover", webpage_url := some "u" }],
        downloadedFiles := ["out/-.webm"], killAfterDownload := true } [] =
      (⟨0, false, "Canceled", ""⟩, ["out/-.webm"]) := by
    simp only [process_one, hch, Bool.not_true, Bool.not_false, Bool.false_and,
      Bool.false_eq_true, if_false, ne_eq, ite_false, if_true]
    decide
  rw [hres]
  exact ⟨rfl, by simp, by decide⟩

/-- **C8 (amended)**: at each explicit cancel checkpoint of `process_one` the
job aborts with status `Canceled`; a cancellation raised through the download
progress hook deletes exactly the files matching the unescaped cleanup glob
`basename.*.part`, and the post-conversion checkpoint deletes both the
half-written mp3 and the fetched source file; cancellations observed at the
pre-search, post-selection and post-download checkpoints delete nothing (in
particular a completed download stays on disk, as the counterexample shows). -/
theorem cancel_checkpoints (index : Nat) (t : Track) (out_dir : String)
    (embed_metadata keep_original : Bool) (env : Env) (fs : List String)
    (hff : env.ffmpegAvailable = true) :
    (env.killAtStart = true →
      process_one index t out_dir embed_metadata keep_original env fs =
        (⟨index, false, "Canceled", ""⟩, fs)) ∧
    (∀ m entries chosen,
      env.killAtStart = false → env.extractOutcome = .ok entries →
      choose_entry entries (wantedTitle t) (wantedArtist t) (targetSecOf t) = some chosen →
      env.killAfterSelect = false →
      pyOrS chosen.webpage_url (pyOrS chosen.url "") ≠ "" →
      env.downloadOutcome = some (.dlError m) →
      substr "killed" (pyLower m) = true →
      process_one index t out_dir embed_metadata keep_original env fs =
        (⟨index, false, "Canceled", ""⟩,
          (fs ++ env.downloadedFiles).filter
            (fun p => !(partMatch out_dir (baseNameOf t) p))) ∧
      ∀ p ∈ (process_one index t out_dir embed_metadata keep_original env fs).2,
        partMatch out_dir (baseNameOf t) p = false) ∧
    (∀ entries chosen,
      env.killAtStart = false → env.extractOutcome = .ok entries →
      choose_entry entries (wantedTitle t) (wantedArtist t) (targetSecOf t) = some chosen →
      env.killAfterSelect = true →
      process_one index t out_dir embed_metadata keep_original env fs =
        (⟨index, false, "Canceled", ""⟩, fs)) ∧
    (∀ entries chosen,
      env.killAtStart = false → env.extractOutcome = .ok entries →
      choose_entry entries (wantedTitle t) (wantedArtist t) (targetSecOf t) = some chosen →
      env.killAfterSelect = false →
      pyOrS chosen.webpage_url (pyOrS chosen.url "") ≠ "" →
      env.downloadOutcome = none → env.killAfterDownload = true →
      process_one index t out_dir embed_metadata keep_original env fs =
        (⟨index, false, "Canceled", ""⟩, fs ++ env.downloadedFiles)) ∧
    (∀ entries chosen src_file tail,
      env.killAtStart = false → env.extractOutcome = .ok entries →
      choose_entry entries (wantedTitle t) (wantedArtist t) (targetSecOf t) = some chosen →
      env.killAfterSelect = false →
      pyOrS chosen.webpage_url (pyOrS chosen.url "") ≠ "" →
      env.downloadOutcome = none → env.killAfterDownload = false →
      globCandidates out_dir (baseNameOf t) (fs ++ env.downloadedFiles) =
        src_file :: tail →
      keep_original = false → env.convertOk = true → env.killAfterConvert = true →
      (process_one index t out_dir embed_metadata keep_original env fs).1 =
        ⟨index, false, "Canceled", ""⟩ ∧
      joinPath out_dir (baseNameOf t ++ ".mp3") ∉
        (process_one index t out_dir embed_metadata keep_original env fs).2 ∧
      src_file ∉ (process_one index t out_dir embed_metadata keep_original env fs).2) := by
  refine ⟨?_, ?_, ?_, ?_, ?_⟩
  · intro hk
    simp only [process_one, hff, hk, Bool.not_true, Bool.false_and,
      Bool.false_eq_true, if_false, if_true]
  · intro m entries chosen hk1 hex hch hk2 hurl hdl hkilled
    have hres : process_one index t out_dir embed_metadata keep_original env fs =
        (⟨index, false, "Canceled", ""⟩,
          (fs ++ env.downloadedFiles).filter
            (fun p => !(partMatch out_dir (baseNameOf t) p))) := by
      simp only [process_one, handleDownloadError, hff, hk1, hex, hch, hk2, hurl, hdl,
        hkilled, Bool.not_true, Bool.false_and, Bool.false_eq_true, if_false,
        ne_eq, ite_false, if_true]
    refine ⟨hres, ?_⟩
    intro p hp
    rw [hres] at hp
    rcases List.mem_filter.mp hp with ⟨_, hpm⟩
    simpa using hpm
  · intro entries chosen hk1 hex hch hk2
    simp only [process_one, hff, hk1, hex, hch, hk2, Bool.not_true, Bool.false_and,
      Bool.false_eq_true, if_false, if_true]
  · intro entries chosen hk1 hex hch hk2 hurl hdl hk3
    simp only [process_one, hff, hk1, hex, hch, hk2, hurl, hdl, hk3, Bool.not_true,
      Bool.false_and, Bool.false_eq_true, if_false, ne_eq, ite_false, if_true]
  · intro entries chosen src_file tail hk1 hex hch hk2 hurl hdl hk3 hglob hko hconv hk4
    have hres : process_one index t out_dir embed_metadata keep_original env fs =
        (⟨index, false, "Canceled", ""⟩,
          (((fs ++ env.downloadedFiles) ++ [joinPath out_dir (baseNameOf t ++ ".mp3")]).filter
              (fun p => p ≠ src_file)).filter
            (fun p => p ≠ joinPath out_dir (baseNameOf t ++ ".mp3"))) := by
      simp only [process_one, hff, hk1, hex, hch, hk2, hurl, hdl, hk3, hglob, hko, hconv,
        hk4, Bool.not_true, Bool.not_false, Bool.false_and, Bool.false_eq_true, if_false,
        ne_eq, ite_false, if_true, Bool.true_eq_false]
    rw [hres]
    refine ⟨rfl, ?_, ?_⟩
    · intro hmem
      rcases List.mem_filter.mp hmem with ⟨_, hne⟩
      simp at hne
    · intro hmem
      rcases List.mem_filter.mp hmem with ⟨hmem1, _⟩
      rcases List.mem_filter.mp hmem1 with ⟨_, hne⟩
      simp at hne

/-- Witness for C8: the post-conversion checkpoint cancels a concrete job and
removes both the mp3 and the fetched source file. -/
theorem cancel_checkpoints_witness :
    (process_one 0 {} "out" true false
      { extractOutcome := .ok [{ title := some "cover", webpage_url := some "u" }],
        downloadedFiles := ["out/-.webm"], killAfterConvert := true } []).1 =
      ⟨0, false, "Canceled", ""⟩ ∧
    joinPath "out" (baseNameOf {} ++ ".mp3") ∉
      (process_one 0 {} "out" true false
        { extractOutcome := .ok [{ title := some "cover", webpage_url := some "u" }],
          downloadedFiles := ["out/-.webm"], killAfterConvert := true } []).2 ∧
    "out/-.webm" ∉
      (process_one 0 {} "out" true false
        { extractOutcome := .ok [{ title := some "cover", webpage_url := some "u" }],
          downloadedFiles := ["out/-.webm"], killAfterConvert := true } []).2 := by
  have hsc : score_candidate { title := some "cover", webpage_url := some "u" }
      "" "" none = -1 :=
    score_candidate_neg _ _ _ _ (by decide)
  have hpick : pick_best [{ title := some "cover", webpage_url := some "u" }]
      "" "" none = none := by
    simp [pick_best, pickStep, hsc]
  have hch : choose_entry [({ title := some "cover", webpage_url := some "u" } : Entry)]
      (wantedTitle {}) (wantedArtist {}) (targetSecOf {}) =
      some { title := some "cover", webpage_url := some "u" } := by
    have h1 : wantedTitle ({} : Track) = "" := by decide
    have h2 : wantedArtist ({} : Track) = "" := by decide
    rw [h1, h2]
    simp [choose_entry, targetSecOf, hpick]
  exact (cancel_checkpoints 0 {} "out" true false
    { extractOutcome := .ok [{ title := some "cover", webpage_url := some "u" }],
      downloadedFiles := ["out/-.webm"], killAfterConvert := true } [] rfl).2.2.2.2
    [{ title := some "cover", webpage_url := some "u" }]
    { title := some "cover", webpage_url := some "u" } "out/-.webm" []
    rfl rfl hch rfl (by decide) rfl rfl (by decide) rfl rfl rfl

/-! ## Claim C5: the sanitizer -/

lemma stripChars_eq (l : List Char) :
    stripChars l = List.rdropWhile pyIsSpace (l.dropWhile pyIsSpace) := rfl

lemma rstripDotSpace_eq (l : List Char) :
    rstripDotSpace l = List.rdropWhile (fun c => c = '.' || c = ' ') l := rfl

lemma sanitize_filename_eq (s : String) :
    sanitize_filename s = String.mk
      ((if isReservedDevice (sanitizeBody s) then '_' :: sanitizeBody s
        else sanitizeBody s).take 180) := rfl

lemma getLast?_mem_list {l : List Char} {a : Char} (h : l.getLast? = some a) :
    a ∈ l := by
  rcases List.mem_getLast?_eq_getLast (l := l) (x := a) h with ⟨hne, rfl⟩
  exact List.getLast_mem hne

lemma rstripPre (l : List Char) : rstripDotSpace l <+: l := by
  rw [rstripDotSpace_eq]; exact List.rdropWhile_prefix _ _

lemma stripChars_sublist (l : List Char) : List.Sublist (stripChars l) l := by
  rw [stripChars_eq]
  exact (( List.rdropWhile_prefix _ _).sublist).trans (List.dropWhile_suffix _).sublist

lemma head?_dropWhile {p : Char → Bool} :
    ∀ {l : List Char} {c : Char}, (l.dropWhile p).head? = some c → p c = false := by
  intro l
  induction l with
  | nil => intro c h; simp at h
  | cons a t ih =>
    intro c h
    rw [List.dropWhile_cons] at h
    by_cases ha : p a = true
    · rw [if_pos ha] at h; exact ih h
    · rw [if_neg ha] at h
      simp only [List.head?_cons, Option.some.injEq] at h
      subst h
      exact Bool.eq_false_iff.mpr ha

lemma head?_of_pre {l1 l2 : List Char} (h : l1 <+: l2) (hne : l1 ≠ []) :
    l1.head? = l2.head? := by
  rcases h with ⟨u, rfl⟩
  cases l1 with
  | nil => exact absurd rfl hne
  | cons a t => rfl

lemma head?_stripChars {l : List Char} {c : Char}
    (h : (stripChars l).head? = some c) : pyIsSpace c = false := by
  rw [stripChars_eq] at h
  have hne : List.rdropWhile pyIsSpace (l.dropWhile pyIsSpace) ≠ [] := by
    intro he; rw [he] at h; simp at h
  rw [head?_of_pre ( List.rdropWhile_prefix _ _) hne] at h
  exact head?_dropWhile h

lemma collapseAux_cons_space_true {a : Char} (t : List Char)
    (ha : pyIsSpace a = true) : collapseAux true (a :: t) = collapseAux true t := by
  simp [collapseAux, ha]

lemma collapseAux_cons_space_false {a : Char} (t : List Char)
    (ha : pyIsSpace a = true) :
    collapseAux false (a :: t) = ' ' :: collapseAux true t := by
  simp [collapseAux, ha]

lemma collapseAux_cons_nonspace {a : Char} (b : Bool) (t : List Char)
    (ha : pyIsSpace a = false) :
    collapseAux b (a :: t) = a :: collapseAux false t := by
  simp [collapseAux, ha]

lemma mem_collapseAux {c : Char} :
    ∀ (b : Bool) (l : List Char), c ∈ collapseAux b l →
      c = ' ' ∨ (c ∈ l ∧ pyIsSpace c = false) := by
  intro b l
  induction l generalizing b with
  | nil => intro h; simp [collapseAux] at h
  | cons a t ih =>
    intro h
    by_cases ha : pyIsSpace a = true
    · cases b with
      | true =>
        rw [collapseAux_cons_space_true t ha] at h
        rcases ih true h with h1 | ⟨h2, h3⟩
        · exact Or.inl h1
        · exact Or.inr ⟨List.mem_cons_of_mem _ h2, h3⟩
      | false =>
        rw [collapseAux_cons_space_false t ha] at h
        rcases List.mem_cons.mp h with h1 | h1
        · exact Or.inl h1
        · rcases ih true h1 with h2 | ⟨h3, h4⟩
          · exact Or.inl h2
          · exact Or.inr ⟨List.mem_cons_of_mem _ h3, h4⟩
    · have ha' : pyIsSpace a = false := Bool.eq_false_iff.mpr ha
      rw [collapseAux_cons_nonspace b t ha'] at h
      rcases List.mem_cons.mp h with h1 | h1
      · subst h1
        exact Or.inr ⟨List.mem_cons_self _ _, ha'⟩
      · rcases ih false h1 with h2 | ⟨h3, h4⟩
        · exact Or.inl h2
        · exact Or.inr ⟨List.mem_cons_of_mem _ h3, h4⟩

lemma collapseAux_true_head :
    ∀ (l : List Char) (c : Char),
      (collapseAux true l).head? = some c → pyIsSpace c = false := by
  intro l
  induction l with
  | nil => intro c h; simp [collapseAux] at h
  | cons a t ih =>
    intro c h
    by_cases ha : pyIsSpace a = true
    · rw [collapseAux_cons_space_true t ha] at h
      exact ih c h
    · have ha' : pyIsSpace a = false := Bool.eq_false_iff.mpr ha
      rw [collapseAux_cons_nonspace true t ha'] at h
      simp only [List.head?_cons, Option.some.injEq] at h
      subst h
      exact ha'

lemma chain_collapseAux : ∀ (b : Bool) (l : List Char),
    List.Chain' noSpacePair (collapseAux b l) := by
  intro b l
  induction l generalizing b with
  | nil => simp [collapseAux]
  | cons a t ih =>
    by_cases ha : pyIsSpace a = true
    · cases b with
      | true => rw [collapseAux_cons_space_true t ha]; exact ih true
      | false =>
        rw [collapseAux_cons_space_false t ha, List.chain'_cons']
        refine ⟨?_, ih true⟩
        intro y hy
        have hys := collapseAux_true_head t y hy
        intro hcon
        rw [hcon.2] at hys
        exact absurd hys (by decide)
    · have ha' : pyIsSpace a = false := Bool.eq_false_iff.mpr ha
      rw [collapseAux_cons_nonspace b t ha', List.chain'_cons']
      refine ⟨?_, ih false⟩
      intro y _ hcon
      rw [hcon.1] at ha'
      exact absurd ha' (by decide)

lemma collapseAux_false_id : ∀ (l : List Char),
    List.Chain' noSpacePair l → (∀ c ∈ l, pyIsSpace c = true → c = ' ') →
    collapseAux false l = l := by
  intro l
  induction l with
  | nil => intro _ _; rfl
  | cons a t ih =>
    intro hch hsp
    have hcht := (List.chain'_cons'.mp hch).2
    have hspt : ∀ c ∈ t, pyIsSpace c = true → c = ' ' :=
      fun c hc => hsp c (List.mem_cons_of_mem _ hc)
    by_cases ha : pyIsSpace a = true
    · have haSp : a = ' ' := hsp a (List.mem_cons_self _ _) ha
      subst haSp
      rw [collapseAux_cons_space_false t ha]
      congr 1
      cases t with
      | nil => rfl
      | cons x r =>
        have hns : noSpacePair ' ' x := (List.chain'_cons'.mp hch).1 x rfl
        have hx : x ≠ ' ' := fun he => hns ⟨rfl, he⟩
        have hxs : pyIsSpace x = false := by
          by_cases hxx : pyIsSpace x = true
          · exact absurd (hspt x (List.mem_cons_self _ _) hxx) hx
          · exact Bool.eq_false_iff.mpr hxx
        have hrec := ih hcht hspt
        rw [collapseAux_cons_nonspace false r hxs] at hrec
        rw [collapseAux_cons_nonspace true r hxs]
        exact hrec
    · have ha' : pyIsSpace a = false := Bool.eq_false_iff.mpr ha
      rw [collapseAux_cons_nonspace false t ha']
      congr 1
      exact ih hcht hspt

lemma stripChars_eq_self {l : List Char}
    (h1 : ∀ c, l.head? = some c → pyIsSpace c = false)
    (h2 : ∀ c, l.getLast? = some c → pyIsSpace c = false) :
    stripChars l = l := by
  rw [stripChars_eq]
  have hd : l.dropWhile pyIsSpace = l := by
    cases l with
    | nil => rfl
    | cons a t =>
      have := h1 a rfl
      rw [List.dropWhile_cons, if_neg (by simp [this])]
  rw [hd, List.rdropWhile_eq_self_iff]
  intro hl
  have := h2 (l.getLast hl) (List.getLast?_eq_getLast l hl)
  simp [this]

lemma rstrip_eq_self {l : List Char}
    (h : ∀ c, l.getLast? = some c → (c = '.' || c = ' ') = false) :
    rstripDotSpace l = l := by
  rw [rstripDotSpace_eq, List.rdropWhile_eq_self_iff]
  intro hl
  have := h (l.getLast hl) (List.getLast?_eq_getLast l hl)
  simp only [this]
  exact Bool.false_ne_true

lemma map_id_of_eq {f : Char → Char} :
    ∀ {l : List Char}, (∀ c ∈ l, f c = c) → l.map f = l := by
  intro l
  induction l with
  | nil => intro _; rfl
  | cons a t ih =>
    intro h
    rw [List.map_cons, h a (List.mem_cons_self _ _),
      ih fun c hc => h c (List.mem_cons_of_mem _ hc)]

lemma comLptDigit_length {b : List Char} (h : comLptDigit b = true) :
    b.length = 4 := by
  rcases b with _ | ⟨c1, _ | ⟨c2, _ | ⟨c3, _ | ⟨c4, _ | ⟨c5, r⟩⟩⟩⟩⟩
  · simp [comLptDigit] at h
  · simp [comLptDigit] at h
  · simp [comLptDigit] at h
  · simp [comLptDigit] at h
  · rfl
  · simp [comLptDigit] at h

lemma isReservedDevice_head {l : List Char} (h : isReservedDevice l = true) :
    ∃ c t, (l.takeWhile (fun c => c ≠ '.')).map Char.toUpper = c :: t ∧
      (c = 'C' ∨ c = 'P' ∨ c = 'A' ∨ c = 'N' ∨ c = 'L') := by
  unfold isReservedDevice at h
  simp only [Bool.or_eq_true, decide_eq_true_eq] at h
  rcases h with ((((h | h) | h) | h) | h)
  · exact ⟨'C', ['O', 'N'], by rw [h]; rfl, Or.inl rfl⟩
  · exact ⟨'P', ['R', 'N'], by rw [h]; rfl, Or.inr (Or.inl rfl)⟩
  · exact ⟨'A', ['U', 'X'], by rw [h]; rfl, Or.inr (Or.inr (Or.inl rfl))⟩
  · exact ⟨'N', ['U', 'L'], by rw [h]; rfl, Or.inr (Or.inr (Or.inr (Or.inl rfl)))⟩
  · have hlen := comLptDigit_length h
    set b := (l.takeWhile (fun c => c ≠ '.')).map Char.toUpper with hb
    rcases b with _ | ⟨c1, _ | ⟨c2, _ | ⟨c3, _ | ⟨c4, _ | ⟨c5, r⟩⟩⟩⟩⟩
    · simp at hlen
    · simp at hlen
    · simp at hlen
    · simp at hlen
    · refine ⟨c1, [c2, c3, c4], rfl, ?_⟩
      simp only [comLptDigit, Bool.and_eq_true, Bool.or_eq_true, decide_eq_true_eq] at h
      rcases h.1 with ⟨⟨h1, _⟩, _⟩ | ⟨⟨h1, _⟩, _⟩
      · exact Or.inl h1
      · exact Or.inr (Or.inr (Or.inr (Or.inr h1)))
    · rw [List.length_cons, List.length_cons, List.length_cons, List.length_cons,
        List.length_cons] at hlen
      omega

lemma isReservedDevice_cons_underscore (t : List Char) :
    isReservedDevice ('_' :: t) = false := by
  by_contra hne
  have h : isReservedDevice ('_' :: t) = true := by
    revert hne; cases isReservedDevice ('_' :: t) <;> simp
  rcases isReservedDevice_head h with ⟨c, r, heq, hc⟩
  rw [List.takeWhile_cons, if_pos (by decide), List.map_cons] at heq
  injection heq with h1 _
  rw [← h1] at hc
  revert hc
  decide

lemma takeWhile_take_comm (p : Char → Bool) :
    ∀ (l : List Char) (n : Nat), (l.take n).takeWhile p = (l.takeWhile p).take n := by
  intro l
  induction l with
  | nil => intro n; simp
  | cons a t ih =>
    intro n
    cases n with
    | zero => simp
    | succ m =>
      rw [List.take_succ_cons, List.takeWhile_cons, List.takeWhile_cons]
      by_cases hp : p a = true
      · rw [if_pos hp, if_pos hp, List.take_succ_cons, ih]
      · rw [if_neg hp, if_neg hp]
        simp

lemma isReservedDevice_take {l : List Char} (h : isReservedDevice l = false) :
    isReservedDevice (l.take 180) = false := by
  by_contra hne
  have htrue : isReservedDevice (l.take 180) = true := by
    revert hne; cases isReservedDevice (l.take 180) <;> simp
  have hcomm : ((l.take 180).takeWhile (fun c => c ≠ '.')).map Char.toUpper =
      ((l.takeWhile (fun c => c ≠ '.')).map Char.toUpper).take 180 := by
    rw [takeWhile_take_comm, List.map_take]
  unfold isReservedDevice at htrue h
  rw [hcomm] at htrue
  set b := (l.takeWhile (fun c => c ≠ '.')).map Char.toUpper with hbdef
  have hshort : ∀ (x : List Char), b.take 180 = x → x.length ≤ 4 → b = x := by
    intro x hx hlen
    have hl : (b.take 180).length = x.length := by rw [hx]
    rw [List.length_take] at hl
    have hbl : b.length = x.length := by omega
    rw [← hx]
    exact (List.take_of_length_le (by omega)).symm
  simp only [Bool.or_eq_true, decide_eq_true_eq] at htrue
  simp only [Bool.or_eq_false_iff, decide_eq_false_iff_not] at h
  rcases htrue with ((((h1 | h1) | h1) | h1) | h1)
  · exact h.1.1.1.1 (hshort _ h1 (by decide))
  · exact h.1.1.1.2 (hshort _ h1 (by decide))
  · exact h.1.1.2 (hshort _ h1 (by decide))
  · exact h.1.2 (hshort _ h1 (by decide))
  · have hlen4 := comLptDigit_length h1
    have hbeq : b = b.take 180 := hshort _ rfl (by omega)
    rw [← hbeq] at h1
    exact absurd h1 (by simp [h.2])

lemma toList_mk (l : List Char) : (String.mk l).toList = l := rfl

lemma sanitizeBody_chars {s : String} {c : Char} (hc : c ∈ sanitizeBody s) :
    c ∉ FORBIDDEN_CHARS ∧ isCategoryC c = false ∧ (pyIsSpace c = true → c = ' ') := by
  unfold sanitizeBody at hc
  have hc2 : c ∈ collapseWs ((stripChars s.toList).map
      (fun ch => if ch ∈ FORBIDDEN_CHARS || isCategoryC ch then '_' else ch)) :=
    (rstripPre _).subset hc
  rcases mem_collapseAux false _ hc2 with hsp | ⟨hmem, hns⟩
  · subst hsp
    exact ⟨by decide, by decide, fun _ => rfl⟩
  · rcases List.mem_map.mp hmem with ⟨x, _, hfx⟩
    have hns2 : pyIsSpace c = true → c = ' ' := fun hcs => absurd hcs (by simp [hns])
    split at hfx
    · rw [← hfx]
      exact ⟨by decide, by decide, by decide⟩
    · next hcond =>
      rw [← hfx]
      simp only [Bool.or_eq_true, decide_eq_true_eq, not_or] at hcond
      refine ⟨hcond.1, ?_, hfx ▸ hns2⟩
      by_cases hcc : isCategoryC x = true
      · exact absurd hcc hcond.2
      · exact Bool.eq_false_iff.mpr hcc

lemma sanitizeBody_head {s : String} {c : Char}
    (h : (sanitizeBody s).head? = some c) : pyIsSpace c = false := by
  unfold sanitizeBody at h
  have hne : rstripDotSpace (collapseWs ((stripChars s.toList).map
      (fun ch => if ch ∈ FORBIDDEN_CHARS || isCategoryC ch then '_' else ch))) ≠ [] := by
    intro he; rw [he] at h; simp at h
  rw [head?_of_pre (rstripPre _) hne] at h
  cases hX : (stripChars s.toList).map
      (fun ch => if ch ∈ FORBIDDEN_CHARS || isCategoryC ch then '_' else ch) with
  | nil => rw [hX] at h; simp [collapseWs, collapseAux] at h
  | cons a t =>
    have hahead : ((stripChars s.toList).map
        (fun ch => if ch ∈ FORBIDDEN_CHARS || isCategoryC ch then '_' else ch)).head? =
        some a := by rw [hX]; rfl
    rw [List.head?_map] at hahead
    cases hsx : (stripChars s.toList).head? with
    | none => rw [hsx] at hahead; simp at hahead
    | some x =>
      rw [hsx] at hahead
      simp only [Option.map_some', Option.some.injEq] at hahead
      have hxs : pyIsSpace x = false := head?_stripChars hsx
      have has : pyIsSpace a = false := by
        rw [← hahead]
        split
        · decide
        · exact hxs
      rw [hX, collapseWs, collapseAux_cons_nonspace false t has] at h
      simp only [List.head?_cons, Option.some.injEq] at h
      rw [← h]
      exact has

lemma sanitize_toList_chars {s : String} {c : Char}
    (hc : c ∈ (sanitize_filename s).toList) :
    c ∉ FORBIDDEN_CHARS ∧ isCategoryC c = false ∧ (pyIsSpace c = true → c = ' ') := by
  rw [sanitize_filename_eq, toList_mk] at hc
  have hc2 : c ∈ (if isReservedDevice (sanitizeBody s) then '_' :: sanitizeBody s
      else sanitizeBody s) := ( List.take_prefix _ _).subset hc
  split at hc2
  · rcases List.mem_cons.mp hc2 with h1 | h1
    · subst h1; exact ⟨by decide, by decide, by decide⟩
    · exact sanitizeBody_chars h1
  · exact sanitizeBody_chars hc2

lemma head?_take180 (l : List Char) : (l.take 180).head? = l.head? := by
  cases l with
  | nil => rfl
  | cons a t => rfl

lemma sanitize_toList_head {s : String} {c : Char}
    (h : (sanitize_filename s).toList.head? = some c) : pyIsSpace c = false := by
  rw [sanitize_filename_eq, toList_mk, head?_take180] at h
  split at h
  · simp only [List.head?_cons, Option.some.injEq] at h
    rw [← h]
    decide
  · exact sanitizeBody_head h

lemma sanitize_toList_chain (s : String) :
    List.Chain' noSpacePair (sanitize_filename s).toList := by
  rw [sanitize_filename_eq, toList_mk]
  have hbody : List.Chain' noSpacePair (sanitizeBody s) := by
    unfold sanitizeBody
    exact List.Chain'.prefix (chain_collapseAux false _) (rstripPre _)
  split
  · refine List.Chain'.prefix ?_ ( List.take_prefix _ _)
    rw [List.chain'_cons']
    refine ⟨fun y _ hcon => ?_, hbody⟩
    rcases hcon with ⟨h1, _⟩
    exact absurd h1 (by decide)
  · exact List.Chain'.prefix hbody ( List.take_prefix _ _)

lemma sanitize_toList_device (s : String) :
    isReservedDevice (sanitize_filename s).toList = false := by
  rw [sanitize_filename_eq, toList_mk]
  split
  · rw [show ('_' :: sanitizeBody s).take 180 = '_' :: (sanitizeBody s).take 179 from rfl]
    exact isReservedDevice_cons_underscore _
  · next hdev =>
    exact isReservedDevice_take (Bool.eq_false_iff.mpr hdev)

lemma sanitize_length (s : String) : (sanitize_filename s).toList.length ≤ 180 := by
  rw [sanitize_filename_eq, toList_mk]
  exact List.length_take_le _ _

lemma sanitize_fix {y : String}
    (hchars : ∀ c ∈ y.toList, c ∉ FORBIDDEN_CHARS ∧ isCategoryC c = false ∧
      (pyIsSpace c = true → c = ' '))
    (hhead : ∀ c, y.toList.head? = some c → pyIsSpace c = false)
    (hchain : List.Chain' noSpacePair y.toList)
    (hdev : isReservedDevice y.toList = false)
    (hlen : y.toList.length ≤ 180)
    (hlast : ∀ c, y.toList.getLast? = some c → c ≠ '.' ∧ c ≠ ' ') :
    sanitize_filename y = y := by
  have hstrip : stripChars y.toList = y.toList := by
    refine stripChars_eq_self hhead ?_
    intro c hc
    rcases hchars c (getLast?_mem_list hc) with ⟨_, _, hsp⟩
    by_cases hcs : pyIsSpace c = true
    · exact absurd (hsp hcs) (hlast c hc).2
    · exact Bool.eq_false_iff.mpr hcs
  have hmap : y.toList.map
      (fun ch => if ch ∈ FORBIDDEN_CHARS || isCategoryC ch then '_' else ch) = y.toList := by
    refine map_id_of_eq ?_
    intro c hc
    rcases hchars c hc with ⟨hF, hC, _⟩
    rw [if_neg (by simp [hF, hC])]
  have hcollapse : collapseWs y.toList = y.toList :=
    collapseAux_false_id _ hchain (fun c hc => (hchars c hc).2.2)
  have hrstrip : rstripDotSpace y.toList = y.toList := by
    refine rstrip_eq_self ?_
    intro c hc
    rcases hlast c hc with ⟨h1, h2⟩
    simp [h1, h2]
  have hne : ¬(isReservedDevice y.toList = true) := by
    rw [hdev]; exact Bool.false_ne_true
  rw [sanitize_filename_eq]
  unfold sanitizeBody
  rw [hstrip, hmap, hcollapse, hrstrip, if_neg hne, List.take_of_length_le hlen]
  cases y
  rfl

set_option maxHeartbeats 2000000 in
set_option maxRecDepth 4096 in
/-- **C5 counterexample**: sanitizing a 182-character name whose 180-character
truncation ends with a dot is not idempotent: a second pass strips the exposed
trailing dot (length 179 vs 180). -/
theorem sanitize_not_idempotent :
    sanitize_filename (sanitize_filename
      (String.mk (List.replicate 179 'a' ++ ['.', ' ', 'b']))) ≠
      sanitize_filename (String.mk (List.replicate 179 'a' ++ ['.', ' ', 'b'])) := by
  decide

/-- **C5 (amended)**: every sanitized name has length at most 180 and contains
no forbidden path character; sanitization is idempotent for every input whose
sanitized form does not end with a dot or a space (truncation to 180
characters can expose such a trailing character, breaking idempotence). -/
theorem sanitize_props (s : String) :
    (sanitize_filename s).length ≤ 180 ∧
    (∀ c ∈ (sanitize_filename s).toList, c ∉ FORBIDDEN_CHARS) ∧
    ((∀ c, (sanitize_filename s).toList.getLast? = some c → c ≠ '.' ∧ c ≠ ' ') →
      sanitize_filename (sanitize_filename s) = sanitize_filename s) := by
  refine ⟨sanitize_length s, fun c hc => (sanitize_toList_chars hc).1, fun hlast => ?_⟩
  exact sanitize_fix (fun c hc => sanitize_toList_chars hc)
    (fun c hc => sanitize_toList_head hc) (sanitize_toList_chain s)
    (sanitize_toList_device s) (sanitize_length s) hlast

/-- Witness for the amended C5 at the specification's own example `"A/B:C"`. -/
theorem sanitize_props_witness :
    (sanitize_filename "A/B:C").length ≤ 180 ∧
    (∀ c ∈ (sanitize_filename "A/B:C").toList, c ∉ FORBIDDEN_CHARS) ∧
    sanitize_filename (sanitize_filename "A/B:C") = sanitize_filename "A/B:C" := by
  have h := sanitize_props "A/B:C"
  refine ⟨h.1, h.2.1, h.2.2 ?_⟩
  intro c hc
  have hlastC : (sanitize_filename "A/B:C").toList.getLast? = some 'C' := by decide
  rw [hlastC] at hc
  injection hc with hc
  rw [← hc]
  exact ⟨by decide, by decide⟩
